import Mathlib

/-!
# DevEnvMCP — verification of the configuration-driven diagnostic engine

A shallow embedding, in Lean 4, of the engine components of the
DevEnvMCP repository (Go): the ecosystem-descriptor loader, the
ecosystem detector, the version normalizer/comparator and suggestion
generator, the freshness verifier, the environment-variable auditor's
directory walk, and the reconciler.

Modelling conventions:
* Pure Go string manipulation (`strings.Split`, `strings.Contains`,
  `strings.ReplaceAll`, `strings.TrimSpace`, `filepath.Ext`,
  `fmt.Sscanf` with `%d`) is translated to executable Lean functions
  over `String` / `List Char` with the same semantics.
* External effects are passed in as explicit parameters: the
  filesystem becomes a record of functions (`exists`, `mtime`,
  `glob`), subprocess execution becomes a function from a command
  string to its outcome, and `os.ExpandEnv` (the process environment)
  becomes a `String → String` parameter.
* Go `float64` confidence arithmetic is modelled over `ℚ`; the
  operations involved (division by small list lengths, `* 0.2`,
  `* 0.1`, clamping at `1.0`) are exact in the ranges exercised here.
* Go `time.Time` modification times are modelled as `Int`, with
  `t1.After(t2)` becoming `t1 > t2`.
-/

namespace DevEnvMCP

/-! ## String utilities (Go `strings` / `path/filepath` semantics) -/

/-- Split a character list on a separator character; mirrors Go's
`strings.Split(s, sep)` for a one-character separator: the result has
one part per separator occurrence plus one, and `[""]` on empty input. -/
def splitChar (sep : Char) : List Char → List (List Char)
  | [] => [[]]
  | c :: rest =>
    if c = sep then
      [] :: splitChar sep rest
    else
      match splitChar sep rest with
      | [] => [[c]]
      | p :: ps => (c :: p) :: ps

/-- Go `strings.Split(s, sep)` for a one-character separator, on `String`. -/
def goSplit (s : String) (sep : Char) : List String :=
  (splitChar sep s.data).map (fun l => ⟨l⟩)

/-- Substring containment on character lists (Go `strings.Contains`). -/
def containsSub (s sub : List Char) : Bool :=
  s.tails.any (fun t => sub.isPrefixOf t)

/-- Go `strings.Contains(s, sub)` on `String`. -/
def goContains (s sub : String) : Bool :=
  containsSub s.data sub.data

/-- Go `filepath.Join(a, b)` for the clean, relative second components
used throughout the engine: `a ++ "/" ++ b`. -/
def joinPath (a b : String) : String :=
  a ++ "/" ++ b

/-- ASCII whitespace, as recognised by Go's `unicode.IsSpace` on the
characters that occur in command output and version strings. -/
def isSpaceChar (c : Char) : Bool :=
  c = ' ' || c = '\t' || c = '\n' || c = '\r'

/-- Go `strings.TrimSpace`. -/
def goTrimSpace (s : String) : String :=
  ⟨((s.data.dropWhile isSpaceChar).reverse.dropWhile isSpaceChar).reverse⟩

/-- Go `filepath.Ext(name)`: the suffix starting at the final dot,
`""` when the name has no dot. -/
def fileExt (s : String) : String :=
  let rev := s.data.reverse
  let pre := rev.takeWhile (fun c => c ≠ '.')
  if pre.length = rev.length then "" else ⟨'.' :: pre.reverse⟩

/-- ASCII lower-casing of a string (Go `strings.ToLower` on the ASCII
file names the loader inspects). -/
def goToLower (s : String) : String :=
  ⟨s.data.map Char.toLower⟩

/-- The scan of Go `strings.ReplaceAll` with a non-empty pattern
`o :: os`: replace every non-overlapping occurrence, left to right.
Each step consumes at least one character, so the input's length
bounds the recursion depth (`fuel`). -/
def replaceAux (o : Char) (os new : List Char) : Nat → List Char → List Char
  | _, [] => []
  | 0, l => l
  | fuel + 1, c :: rest =>
    if (o :: os).isPrefixOf (c :: rest) then
      new ++ replaceAux o os new fuel (rest.drop os.length)
    else
      c :: replaceAux o os new fuel rest

/-- Go `strings.ReplaceAll(s, old, new)`; the engine only calls it with
the non-empty literal pattern `"{version}"`. -/
def goReplaceAll (s old new : String) : String :=
  match old.data with
  | [] => s
  | o :: os => ⟨replaceAux o os new.data s.data.length s.data⟩

/-- Value of a decimal digit run (used by the `fmt.Sscanf` model). -/
def digitsToNat (ds : List Char) : Nat :=
  ds.foldl (fun n c => 10 * n + (c.toNat - 48)) 0

/-- Go `fmt.Sscanf(s, "%d", &p)` as the verifier uses it: skip leading
whitespace, read an optional sign and a decimal digit run; when no
digit is found the scan fails and `p` keeps its zero value. -/
def scanInt (s : String) : Int :=
  let l := s.data.dropWhile isSpaceChar
  match l with
  | '-' :: rest =>
    let ds := rest.takeWhile Char.isDigit
    if ds.isEmpty then 0 else -(digitsToNat ds : Int)
  | '+' :: rest =>
    let ds := rest.takeWhile Char.isDigit
    if ds.isEmpty then 0 else (digitsToNat ds : Int)
  | _ =>
    let ds := l.takeWhile Char.isDigit
    if ds.isEmpty then 0 else (digitsToNat ds : Int)

/-! ## Version parsing and comparison

`internal/version/detector.go` (`parseVersion`) and the validator's
`compareVersions` / `generateSuggestions`. -/

/-- `ParsedVersion` from `internal/version/detector.go`. -/
structure ParsedVersion where
  Full : String := ""
  Semantic : String := ""
  Major : String := ""
  Minor : String := ""
  Patch : String := ""
deriving DecidableEq, Repr

/-- The normalization step of `parseVersion` in
`internal/version/detector.go`, applied to the full version string that
the version regex's first capture group produced (the regex match
itself is an external effect and is not modelled): split on `.`, use
the first part as major, default minor and patch to `"0"`, and strip a
`+…`/`-…` suffix from the third part. -/
def parseVersionFrom (fullVersion : String) : ParsedVersion :=
  let versionParts := goSplit fullVersion '.'
  let major := versionParts.headD ""
  let minor := if versionParts.length > 1 then versionParts.getD 1 "" else "0"
  let patch :=
    if versionParts.length > 2 then
      (goSplit ((goSplit (versionParts.getD 2 "") '+').headD "") '-').headD ""
    else "0"
  let semantic := major ++ "." ++ minor ++ "." ++ patch
  { Full := fullVersion, Semantic := semantic,
    Major := major, Minor := minor, Patch := patch }

/-- The tail of the `compareVersions` loop once the second version has
run out of components: the remaining components of the first version
are compared against `0`. -/
def cmpTailLeft : List String → Int
  | [] => 0
  | a :: r1 =>
    let p1 := scanInt a
    if p1 < 0 then -1 else if p1 > 0 then 1 else cmpTailLeft r1

/-- The tail of the `compareVersions` loop once the first version has
run out of components: `0` is compared against the remaining
components of the second version. -/
def cmpTailRight : List String → Int
  | [] => 0
  | b :: r2 =>
    let p2 := scanInt b
    if (0 : Int) < p2 then -1 else if p2 < 0 then 1 else cmpTailRight r2

/-- The per-component loop of `compareVersions`: at each index the
components are scanned with `fmt.Sscanf "%d"` (missing components scan
as `0`) and compared numerically. -/
def cmpParts : List String → List String → Int
  | [], l2 => cmpTailRight l2
  | a :: r1, [] =>
    let p1 := scanInt a
    if p1 < 0 then -1 else if p1 > 0 then 1 else cmpTailLeft r1
  | a :: r1, b :: r2 =>
    let p1 := scanInt a
    let p2 := scanInt b
    if p1 < p2 then -1 else if p2 < p1 then 1 else cmpParts r1 r2

/-- `compareVersions` from the version validator: split both versions
on `.` and compare component-wise, the shorter side padded with zeros;
returns `-1`, `0` or `1`. -/
def compareVersions (v1 v2 : String) : Int :=
  cmpParts (goSplit v1 '.') (goSplit v2 '.')

/-! ## Configuration data model (`internal/config/schema.go`) -/

/-- `Detection` from the config schema. -/
structure Detection where
  ManifestFiles : List String := []
  RequiredFiles : List String := []
  OptionalFiles : List String := []
  DirectoryPatterns : List String := []
deriving DecidableEq, Repr

/-- `Manifest` from the config schema. -/
structure Manifest where
  PrimaryFile : String := ""
  Location : String := ""
  Format : String := ""
deriving DecidableEq, Repr

/-- `VerificationCommand` from the config schema. -/
structure VerificationCommand where
  Name : String := ""
  Type' : String := ""
  Source : String := ""
  Target : String := ""
  TargetPattern : String := ""
  Command : String := ""
  Description : String := ""
deriving DecidableEq, Repr

/-- `BuildFreshness` from the config schema. -/
structure BuildFreshness where
  ManifestTimestampCheck : Bool := false
  CacheTimestampCheck : Bool := false
  BuildOutputCheck : Bool := false
  Commands : List VerificationCommand := []
deriving DecidableEq, Repr

/-- `Verification` from the config schema (the dependency-audit block
is unused by the verified components and omitted). -/
structure Verification where
  BuildFreshness : BuildFreshness := {}
deriving DecidableEq, Repr

/-- `Environment` from the config schema. -/
structure EnvironmentCfg where
  VariablePatterns : List String := []
  ConfigFiles : List String := []
  RequiredVars : List String := []
deriving DecidableEq, Repr

/-- `Fix` from the config schema. -/
structure Fix where
  IssueType : String := ""
  Command : String := ""
  VerifyCommand : String := ""
  Description : String := ""
deriving DecidableEq, Repr

/-- `Reconciliation` from the config schema. -/
structure Reconciliation where
  Fixes : List Fix := []
deriving DecidableEq, Repr

/-- `VersionManager` from the config schema. -/
structure VersionManager where
  Name : String := ""
  CheckCommand : String := ""
  ListCommand : String := ""
  InstallCommand : String := ""
  SwitchCommand : String := ""
  CurrentCommand : String := ""
deriving DecidableEq, Repr

/-- `RuntimeVariant` from the config schema. -/
structure RuntimeVariant where
  Name : String := ""
  Provider : String := ""
  Pattern : String := ""
  Compatible : Bool := false
  Description : String := ""
deriving DecidableEq, Repr

/-- `VersionConfig` from the config schema. -/
structure VersionConfig where
  Language : String := ""
  VersionCommand : String := ""
  VersionPattern : String := ""
  RuntimePattern : String := ""
  VersionManagers : List VersionManager := []
  RuntimeVariants : List RuntimeVariant := []
deriving DecidableEq, Repr

/-- `Requirements` from the config schema. -/
structure Requirements where
  MinVersion : String := ""
  MaxVersion : String := ""
  PreferredVersions : List String := []
  PreferredRuntimes : List String := []
  ExcludedVersions : List String := []
  ExcludedRuntimes : List String := []
deriving DecidableEq, Repr

/-- `Ecosystem` from the config schema (the cache/build/dependency and
infrastructure sections are not consulted by the verified components
and are omitted from the embedding). -/
structure Ecosystem where
  Name : String := ""
  ID : String := ""
  Version : String := ""
  Detection : Detection := {}
  Manifest : Manifest := {}
  Verification : Verification := {}
  Environment : EnvironmentCfg := {}
  Reconciliation : Reconciliation := {}
  VersionConfig : VersionConfig := {}
  Requirements : Requirements := {}
deriving DecidableEq, Repr

/-- `EcosystemConfig`, the top-level YAML document. -/
structure EcosystemConfig where
  Ecosystem : Ecosystem := {}
deriving DecidableEq, Repr

/-! ## Descriptor loader (`internal/config/loader.go`) -/

/-- `validateConfig`: a descriptor is valid iff `ecosystem.id` and
`ecosystem.manifest.primary_file` are non-empty. -/
def validateConfig (config : EcosystemConfig) : Bool :=
  config.Ecosystem.ID ≠ "" && config.Ecosystem.Manifest.PrimaryFile ≠ ""

/-- `isYAMLFile`: case-insensitive `.yaml` / `.yml` extension match. -/
def isYAMLFile (filename : String) : Bool :=
  let extLower := goToLower (fileExt filename)
  extLower = ".yaml" || extLower = ".yml"

/-- A filesystem entry as the loader's directory walk sees it. A file
carries the result of reading and YAML-parsing it: `none` when the
read or the parse fails (external effects), `some config` otherwise.
Entries appear in the order `os.ReadDir` yields them. -/
inductive FsEntry where
  | file (name : String) (parsed : Option EcosystemConfig)
  | dir (name : String) (entries : List FsEntry)

/-- `LoadEcosystemConfig` after the read and YAML parse (abstracted in
the `FsEntry`): apply `validateConfig`, dropping invalid descriptors. -/
def loadEcosystemConfig (parsed : Option EcosystemConfig) : Option EcosystemConfig :=
  match parsed with
  | none => none
  | some config => if validateConfig config then some config else none

mutual

/-- The contribution of one directory entry to `discoverConfigsInDir`:
a subdirectory's configs when recursing, a YAML file's successfully
loaded config; everything else (and any file that fails to load) is
skipped. -/
def discoverConfigsEntry : FsEntry → Bool → List EcosystemConfig
  | .dir _ sub, recursive =>
    if recursive then discoverConfigsEntries sub true else []
  | .file name parsed, _ =>
    if isYAMLFile name then
      match loadEcosystemConfig parsed with
      | some config => [config]
      | none => []
    else []

/-- Entry-list worker of `discoverConfigsInDir`. -/
def discoverConfigsEntries : List FsEntry → Bool → List EcosystemConfig
  | [], _ => []
  | e :: rest, recursive =>
    discoverConfigsEntry e recursive ++ discoverConfigsEntries rest recursive

end

/-- `discoverConfigsInDir`: collect every YAML file's successfully
loaded config, in directory order; recurse into subdirectories only
when `recursive` is set. -/
def discoverConfigsInDir (entries : List FsEntry) (recursive : Bool) : List EcosystemConfig :=
  discoverConfigsEntries entries recursive

/-- Look up a subdirectory by name (`common.DirExists` plus descending
into it, on the tree model of the descriptor base directory). -/
def findDir (entries : List FsEntry) (name : String) : Option (List FsEntry) :=
  match entries with
  | [] => none
  | .dir n sub :: rest => if n = name then some sub else findDir rest name
  | .file _ _ :: rest => findDir rest name

/-- `DiscoverEcosystemConfigs` (the current loader at
`internal/config/loader.go:171`): prefer `config/languages` +
`config/infrastructure` (both recursive), fall back to
`language-configs` (flat) + `tool-configs` (recursive), finally to
flat discovery in the base directory itself. The base directory is
modelled as its entry list, so the `ErrNotFound` branch for a missing
base does not arise. -/
def discoverEcosystemConfigs (base : List FsEntry) : List EcosystemConfig :=
  match findDir base "config" with
  | some configEntries =>
    (match findDir configEntries "languages" with
     | some langEntries => discoverConfigsInDir langEntries true
     | none => []) ++
    (match findDir configEntries "infrastructure" with
     | some infraEntries => discoverConfigsInDir infraEntries true
     | none => [])
  | none =>
    match findDir base "language-configs", findDir base "tool-configs" with
    | some langEntries, some toolEntries =>
      discoverConfigsInDir langEntries false ++ discoverConfigsInDir toolEntries true
    | some langEntries, none => discoverConfigsInDir langEntries false
    | none, some toolEntries => discoverConfigsInDir toolEntries true
    | none, none => discoverConfigsInDir base false

/-! ## Ecosystem detector (`internal/detector/detector.go`)

Filesystem existence checks and `os.ExpandEnv` are external effects,
passed in as function parameters. Confidence arithmetic is over `ℚ`. -/

/-- `isEcosystemPresent`: all required files must exist; the base
confidence is `1.0`, replaced by the fraction of required files present
when any are configured; optional files add up to `0.2` and directory
patterns up to `0.1`, each clamped at `1.0`; the ecosystem matches iff
the final confidence is at least `0.5`. -/
def isEcosystemPresent (fileExists : String → Bool) (dirExists : String → Bool)
    (expand : String → String) (projectRoot : String) (cfg : EcosystemConfig) :
    Bool × ℚ :=
  let detection := cfg.Ecosystem.Detection
  let requiredCount :=
    (detection.RequiredFiles.filter (fun file => fileExists (joinPath projectRoot file))).length
  if detection.RequiredFiles.length > 0 ∧ requiredCount < detection.RequiredFiles.length then
    (false, 0)
  else
    let confidence : ℚ :=
      if detection.RequiredFiles.length > 0 then
        (requiredCount : ℚ) / (detection.RequiredFiles.length : ℚ)
      else 1
    let optionalCount :=
      (detection.OptionalFiles.filter (fun file => fileExists (joinPath projectRoot file))).length
    let confidence :=
      if detection.OptionalFiles.length > 0 then
        min (confidence + (optionalCount : ℚ) / (detection.OptionalFiles.length : ℚ) * (2/10)) 1
      else confidence
    let patternCount :=
      (detection.DirectoryPatterns.filter
        (fun pattern => dirExists (joinPath projectRoot (expand pattern)))).length
    let confidence :=
      if detection.DirectoryPatterns.length > 0 then
        min (confidence + (patternCount : ℚ) / (detection.DirectoryPatterns.length : ℚ) * (1/10)) 1
      else confidence
    (confidence ≥ 1/2, confidence)

/-! ## Reconciler (`internal/reconciler/reconciler.go`)

Subprocess execution is an external effect: a command string maps to an
`ExecResult` carrying the combined output and, on non-zero exit, the Go
error's message. -/

/-- Outcome of running one shell command (`exec.CommandContext` +
`CombinedOutput`): `err = none` models a zero exit. -/
structure ExecResult where
  err : Option String := none
  output : String := ""
deriving DecidableEq, Repr

/-- `Issue` from the freshness verifier. -/
structure Issue where
  Type' : String := ""
  Severity : String := ""
  Message : String := ""
  FixAvailable : Bool := false
  FixCommand : String := ""
deriving DecidableEq, Repr

/-- `FixResult` from the reconciler. -/
structure FixResult where
  IssueType : String := ""
  Command : String := ""
  Success : Bool := false
  Message : String := ""
  Error : String := ""
deriving DecidableEq, Repr

/-- `ReconciliationReport` from the reconciler. -/
structure ReconciliationReport where
  Fixed : List FixResult := []
  Failed : List FixResult := []
  IsSuccess : Bool := false
  Message : String := ""
deriving DecidableEq, Repr

/-- `findFix`: first `Fix` whose `IssueType` equals the issue's type. -/
def findFix (fixes : List Fix) (issueType : String) : Option Fix :=
  match fixes with
  | [] => none
  | fix :: rest => if fix.IssueType = issueType then some fix else findFix rest issueType

/-- The execution tail of `executeFix`, once a non-empty command has
been selected: run the command (5-minute timeout); on failure record
the trimmed output; on success run the verify command (1-minute
timeout) when one is configured. -/
def runSelectedFix (runCmd : String → ExecResult) (fix : Fix) (command : String) : FixResult :=
  let base : FixResult := { IssueType := fix.IssueType, Command := fix.Command }
  match (runCmd command).err with
  | some errMsg =>
    { base with
      Error := errMsg
      Message := "Fix command failed: " ++ goTrimSpace (runCmd command).output }
  | none =>
    if fix.VerifyCommand ≠ "" then
      match (runCmd fix.VerifyCommand).err with
      | some verifyErr =>
        { base with
          Success := false
          Message := "Fix executed but verification failed: "
            ++ goTrimSpace (runCmd fix.VerifyCommand).output
          Error := verifyErr }
      | none =>
        { base with
          Success := true
          Message := "Fix executed and verified successfully: " ++ fix.Description }
    else
      { base with Success := true, Message := "Fix executed: " ++ fix.Description }

/-- `executeFix`: select the fix's own command, falling back to the
issue's carried `FixCommand`; with neither, fail with
"No fix command available". -/
def executeFix (runCmd : String → ExecResult) (fix : Fix) (issue : Issue) : FixResult :=
  let command := if fix.Command = "" then issue.FixCommand else fix.Command
  if command = "" then
    { IssueType := fix.IssueType
      Command := fix.Command
      Success := false
      Message := "No fix command available" }
  else
    runSelectedFix runCmd fix command

/-- The issue loop of `ReconcileEnvironment`, with the report fields
threaded as an accumulator. Issues without `FixAvailable` are skipped;
an issue type without a `Fix` entry records a failure without running
anything; otherwise the fix is executed and filed by its success. -/
def reconcileGo (runCmd : String → ExecResult) (fixes : List Fix) :
    List Issue → List FixResult → List FixResult → Bool →
    List FixResult × List FixResult × Bool
  | [], fixed, failed, ok => (fixed, failed, ok)
  | issue :: rest, fixed, failed, ok =>
    if !issue.FixAvailable then
      reconcileGo runCmd fixes rest fixed failed ok
    else
      match findFix fixes issue.Type' with
      | none =>
        reconcileGo runCmd fixes rest fixed
          (failed ++ [{ IssueType := issue.Type'
                        Success := false
                        Message := "No fix available for this issue type" }]) false
      | some fix =>
        let result := executeFix runCmd fix issue
        if result.Success then
          reconcileGo runCmd fixes rest (fixed ++ [result]) failed ok
        else
          reconcileGo runCmd fixes rest fixed (failed ++ [result]) false

/-- The summary message of `ReconcileEnvironment`. -/
def reconcileMessage (fixed failed : List FixResult) : String :=
  let msg := if fixed.length > 0 then "Fixed " ++ toString fixed.length ++ " issue(s)" else ""
  if failed.length > 0 then
    (if msg ≠ "" then msg ++ ", " else msg)
      ++ "Failed to fix " ++ toString failed.length ++ " issue(s)"
  else msg

/-- `ReconcileEnvironment`: run every available fix and aggregate the
results; the project root and detected ecosystem are represented by the
command oracle and the ecosystem's `Fixes` list. -/
def reconcileEnvironment (runCmd : String → ExecResult) (issues : List Issue)
    (fixes : List Fix) : ReconciliationReport :=
  let (fixed, failed, ok) := reconcileGo runCmd fixes issues [] [] true
  { Fixed := fixed
    Failed := failed
    IsSuccess := ok
    Message := reconcileMessage fixed failed }

/-! ## Freshness verifier (`VerifyBuildFreshness` and helpers)

The filesystem (existence, modification times, glob expansion) is an
external effect, passed in as a record of functions. -/

/-- The filesystem as the verifier observes it: existence checks
(`common.FileExists`), modification times (`common.GetFileInfo`, as
`Int`), and glob expansion (`common.FindFilesByPattern`). -/
structure FileSys where
  pathExists : String → Bool
  mtime : String → Int
  glob : String → List String

/-- `FreshnessReport` from the verifier. -/
structure FreshnessReport where
  EcosystemID : String := ""
  IsHealthy : Bool := true
  Issues : List Issue := []
deriving DecidableEq, Repr

/-- `getFixCommand`: the command of the first `Fix` recorded for the
issue type, `""` when none is. -/
def getFixCommand (fixes : List Fix) (issueType : String) : String :=
  match fixes with
  | [] => ""
  | fix :: rest => if fix.IssueType = issueType then fix.Command else getFixCommand rest issueType

/-- `verifyTimestampPattern`: glob the expanded target pattern under
the project root; no matches is a `missing_build_output` warning;
otherwise the build is stale iff the source is newer than the newest
match. The "newest" scan starts from the zero time, matching the Go
loop's `var newestTime time.Time`. -/
def verifyTimestampPattern (fs : FileSys) (expand : String → String)
    (sourceMtime : Int) (pattern : String) (projectRoot : String)
    (cmd : VerificationCommand) (fixes : List Fix) (relOfNewest : String → String) :
    Except String (Option Issue) :=
  let fullPattern := joinPath projectRoot (expand pattern)
  let globMatches := fs.glob fullPattern
  if globMatches.isEmpty then
    .ok (some { Type' := "missing_build_output"
                Severity := "warning"
                Message := "No files found matching pattern: " ++ pattern
                FixAvailable := false })
  else
    let newest := globMatches.foldl
      (fun acc m => if fs.mtime m > acc.1 then (fs.mtime m, m) else acc) ((0 : Int), "")
    if sourceMtime > newest.1 then
      .ok (some { Type' := "stale_build"
                  Severity := "error"
                  Message := cmd.Source ++ " is newer than build output ("
                    ++ relOfNewest newest.2 ++ ")"
                  FixAvailable := true
                  FixCommand := getFixCommand fixes "stale_build" })
    else
      .ok none

/-- `verifyTimestampCompare`: a missing source is a check-level error
(no issue); with a target pattern, defer to the pattern comparison;
with a single target, a missing target is a `missing_target` warning
and a source newer than the target is a `stale_build` error carrying
the ecosystem's recorded fix command. -/
def verifyTimestampCompare (fs : FileSys) (expand : String → String)
    (projectRoot : String) (cmd : VerificationCommand) (fixes : List Fix)
    (relOfNewest : String → String) : Except String (Option Issue) :=
  let sourcePath := joinPath projectRoot (expand cmd.Source)
  if !fs.pathExists sourcePath then
    .error ("source file not found: " ++ sourcePath)
  else
    let sourceMtime := fs.mtime sourcePath
    if cmd.TargetPattern ≠ "" then
      verifyTimestampPattern fs expand sourceMtime cmd.TargetPattern projectRoot cmd
        fixes relOfNewest
    else if cmd.Target ≠ "" then
      let targetPath := joinPath projectRoot (expand cmd.Target)
      if !fs.pathExists targetPath then
        .ok (some { Type' := "missing_target"
                    Severity := "warning"
                    Message := "Target file not found: " ++ cmd.Target
                    FixAvailable := false })
      else if sourceMtime > fs.mtime targetPath then
        .ok (some { Type' := "stale_build"
                    Severity := "error"
                    Message := cmd.Source ++ " is newer than " ++ cmd.Target
                    FixAvailable := true
                    FixCommand := getFixCommand fixes "stale_build" })
      else
        .ok none
    else
      .ok none

/-- `verifyCommand`: command-based verification is unimplemented and
reports no issue. -/
def verifyCommand (_cmd : VerificationCommand) : Except String (Option Issue) :=
  .ok none

/-- `executeVerificationCommand`: dispatch on the check kind; unknown
kinds are check-level errors. -/
def executeVerificationCommand (fs : FileSys) (expand : String → String)
    (projectRoot : String) (fixes : List Fix) (relOfNewest : String → String)
    (cmd : VerificationCommand) : Except String (Option Issue) :=
  if cmd.Type' = "timestamp_compare" then
    verifyTimestampCompare fs expand projectRoot cmd fixes relOfNewest
  else if cmd.Type' = "command" then
    verifyCommand cmd
  else
    .error ("unknown verification command type: " ++ cmd.Type')

/-- The check loop of `VerifyBuildFreshness`: a check-level error is
logged and skipped; an emitted issue marks the report unhealthy and is
appended in declaration order. -/
def freshnessGo (fs : FileSys) (expand : String → String) (projectRoot : String)
    (fixes : List Fix) (relOfNewest : String → String) :
    List VerificationCommand → Bool → List Issue → Bool × List Issue
  | [], healthy, issues => (healthy, issues)
  | cmd :: rest, healthy, issues =>
    match executeVerificationCommand fs expand projectRoot fixes relOfNewest cmd with
    | .error _ => freshnessGo fs expand projectRoot fixes relOfNewest rest healthy issues
    | .ok none => freshnessGo fs expand projectRoot fixes relOfNewest rest healthy issues
    | .ok (some issue) =>
      freshnessGo fs expand projectRoot fixes relOfNewest rest false (issues ++ [issue])

/-- `VerifyBuildFreshness`: evaluate every configured freshness check
in declaration order and report the ecosystem's issues. -/
def verifyBuildFreshness (fs : FileSys) (expand : String → String)
    (projectRoot : String) (ecosystemID : String) (fixes : List Fix)
    (relOfNewest : String → String) (commands : List VerificationCommand) :
    FreshnessReport :=
  let (healthy, issues) := freshnessGo fs expand projectRoot fixes relOfNewest commands true []
  { EcosystemID := ecosystemID, IsHealthy := healthy, Issues := issues }

/-! ## Version validator suggestions (`generateSuggestions`) -/

/-- `ValidationIssue` from the version validator. -/
structure ValidationIssue where
  Type' : String := ""
  Severity : String := ""
  Message : String := ""
  Current : String := ""
  Required : String := ""
deriving DecidableEq, Repr

/-- `Suggestion` from the version validator. -/
structure Suggestion where
  Type' : String := ""
  Description : String := ""
  Versions : List String := []
  Commands : List String := []
deriving DecidableEq, Repr

/-- The slice of `VersionInfo` that `generateSuggestions` consults: the
name of the version manager detected by the probe (`""` for none). -/
structure VersionInfo where
  VersionManager : String := ""
deriving DecidableEq, Repr

/-- The suggestion built for one issue by `generateSuggestions`, with
the manager lookup already resolved. -/
def suggestionForIssue (manager : Option VersionManager) (cfg : EcosystemConfig)
    (issue : ValidationIssue) : List Suggestion :=
  if issue.Type' = "version_too_old" ∨ issue.Type' = "version_too_new"
      ∨ issue.Type' = "version_excluded" then
    let versions :=
      if cfg.Ecosystem.Requirements.PreferredVersions.length > 0 then
        cfg.Ecosystem.Requirements.PreferredVersions
      else if cfg.Ecosystem.Requirements.MinVersion ≠ ""
          ∧ cfg.Ecosystem.Requirements.MaxVersion ≠ "" then
        [cfg.Ecosystem.Requirements.MinVersion, cfg.Ecosystem.Requirements.MaxVersion]
      else []
    let commands :=
      match manager with
      | some m =>
        versions.flatMap (fun version =>
          [goReplaceAll m.InstallCommand "{version}" version,
           goReplaceAll m.SwitchCommand "{version}" version])
      | none => []
    [{ Type' := "switch_version"
       Description := "Switch to a compatible version (required: " ++ issue.Required ++ ")"
       Versions := versions
       Commands := commands }]
  else if issue.Type' = "runtime_excluded" ∨ issue.Type' = "runtime_not_preferred" then
    [{ Type' := "switch_runtime"
       Description := "Switch to a preferred runtime: " ++ issue.Required
       Versions := cfg.Ecosystem.Requirements.PreferredRuntimes }]
  else []

/-- `generateSuggestions`: look up the detected version manager among
the descriptor's `version_managers`, then build one suggestion per
version-family or runtime-family issue, in issue order. -/
def generateSuggestions (info : VersionInfo) (cfg : EcosystemConfig)
    (issues : List ValidationIssue) : List Suggestion :=
  let manager :=
    cfg.Ecosystem.VersionConfig.VersionManagers.find?
      (fun vm => vm.Name = info.VersionManager)
  issues.flatMap (suggestionForIssue manager cfg)

/-! ## Env-var auditor directory walk (`internal/auditor/envvar.go`)

`findEnvVarReferences` walks the project root with `filepath.Walk`.
The walked directory tree is modelled explicitly; each node is a file
or a directory with ordered children, and a node's walk path is its
parent's path joined with its name. -/

/-- A node of the walked project tree. -/
inductive WalkEntry where
  | file (name : String)
  | dir (name : String) (entries : List WalkEntry)

/-- The directory-skip test of `findEnvVarReferences`: the walk
returns `filepath.SkipDir` for a directory whose path contains
`node_modules`, `.git`, `target` or `build` — a plain
`strings.Contains` substring test on the whole path. -/
def skipDir (path : String) : Bool :=
  goContains path "node_modules" || goContains path ".git"
    || goContains path "target" || goContains path "build"

mutual

/-- The directories the auditor's walk enters under a node whose walk
path is `path`: a skipped directory and everything below it are
omitted. -/
def scannedDirs (path : String) : WalkEntry → List String
  | .file _ => []
  | .dir name entries =>
    let q := joinPath path name
    if skipDir q then [] else q :: scannedDirsEntries q entries

/-- Entry-list worker of `scannedDirs`. -/
def scannedDirsEntries (path : String) : List WalkEntry → List String
  | [] => []
  | e :: rest => scannedDirs path e ++ scannedDirsEntries path rest

end

mutual

/-- Every directory path under a node, skipped or not. -/
def dirPaths (path : String) : WalkEntry → List String
  | .file _ => []
  | .dir name entries =>
    let q := joinPath path name
    q :: dirPathsEntries q entries

/-- Entry-list worker of `dirPaths`. -/
def dirPathsEntries (path : String) : List WalkEntry → List String
  | [] => []
  | e :: rest => dirPaths path e ++ dirPathsEntries path rest

end

/-- The directories `findEnvVarReferences` scans for a project root:
`filepath.Walk` visits the root itself first (the skip test applies to
it too), then its entries in order. -/
def auditScannedDirs (projectRoot : String) (entries : List WalkEntry) : List String :=
  if skipDir projectRoot then [] else projectRoot :: scannedDirsEntries projectRoot entries

/-- Every directory path of the walked project, in visit order. -/
def auditDirPaths (projectRoot : String) (entries : List WalkEntry) : List String :=
  projectRoot :: dirPathsEntries projectRoot entries

/-- The claim's reading of the skip rule, for comparison with the
code's `skipDir`: the path contains `node_modules`, `.git`, `target`
or `build` as a whole `/`-separated path segment. -/
def segmentSkip (path : String) : Bool :=
  (goSplit path '/').any
    (fun seg => seg = "node_modules" || seg = ".git" || seg = "target" || seg = "build")

/-! ## Auxiliary predicates and concrete instances used by the theorems -/

/-- A non-empty all-digit string: one numeric dot-separated component. -/
def isNumStr (s : String) : Bool :=
  !s.data.isEmpty && s.data.all Char.isDigit

/-- The hypothesis under which a raw version string is "numeric" in the
sense of the spec's normalization invariant: its first three
dot-separated components are numeric, the third after stripping a
`+…`/`-…` suffix the way `parseVersion` does. -/
def numericParts (V : String) : Bool :=
  let parts := goSplit V '.'
  isNumStr (parts.headD "") &&
  (decide (parts.length ≤ 1) || isNumStr (parts.getD 1 "")) &&
  (decide (parts.length ≤ 2) ||
    isNumStr ((goSplit ((goSplit (parts.getD 2 "") '+').headD "") '-').headD ""))

/-- The candidate-version list the spec's suggestion rule selects, as
the code implements it: the descriptor's `preferred_versions` when
non-empty, else `[min_version, max_version]` when both are non-empty,
else the empty list. -/
def suggestedVersions (cfg : EcosystemConfig) : List String :=
  if cfg.Ecosystem.Requirements.PreferredVersions.length > 0 then
    cfg.Ecosystem.Requirements.PreferredVersions
  else if cfg.Ecosystem.Requirements.MinVersion ≠ ""
      ∧ cfg.Ecosystem.Requirements.MaxVersion ≠ "" then
    [cfg.Ecosystem.Requirements.MinVersion, cfg.Ecosystem.Requirements.MaxVersion]
  else []

/-- The concrete command strings the suggestion rule produces: when the
detected version manager appears in the descriptor's `version_managers`,
each candidate version is substituted for `{version}` in that manager's
install and switch templates. -/
def suggestedCommands (info : VersionInfo) (cfg : EcosystemConfig) : List String :=
  match cfg.Ecosystem.VersionConfig.VersionManagers.find?
      (fun vm => vm.Name = info.VersionManager) with
  | some m =>
    (suggestedVersions cfg).flatMap (fun version =>
      [goReplaceAll m.InstallCommand "{version}" version,
       goReplaceAll m.SwitchCommand "{version}" version])
  | none => []

/-- A command oracle under which every subprocess exits 0 with empty
output. -/
def runNone : String → ExecResult := fun _ => {}

/-- A valid descriptor with id `dup` declaring `file1.xml`. -/
def cfgDupA : EcosystemConfig :=
  { Ecosystem := { ID := "dup", Manifest := { PrimaryFile := "file1.xml" } } }

/-- A second valid descriptor with the same id `dup` but a different
manifest, `file2.xml`. -/
def cfgDupB : EcosystemConfig :=
  { Ecosystem := { ID := "dup", Manifest := { PrimaryFile := "file2.xml" } } }

/-- A descriptor base directory holding two YAML files that both carry
the id `dup`. -/
def baseDup : List FsEntry :=
  [.file "a.yaml" (some cfgDupA), .file "b.yaml" (some cfgDupB)]

/-- A fixable issue whose type has no entry in the ecosystem's `Fixes`
but which carries its own fix command. -/
def issueCarried : Issue :=
  { Type' := "stale_build", Severity := "error", FixAvailable := true,
    FixCommand := "make build" }

/-- A filesystem with a manifest newer than the single build output. -/
def fsStale : FileSys :=
  { pathExists := fun p => p = "proj/manifest.txt" || p = "proj/build/out.txt"
    mtime := fun p => if p = "proj/manifest.txt" then 10 else 0
    glob := fun _ => [] }

/-- The `timestamp_compare` check comparing the manifest against a
single build output. -/
def cmdSingleTarget : VerificationCommand :=
  { Type' := "timestamp_compare", Source := "manifest.txt", Target := "build/out.txt" }

/-- A `stale_build` fix recording `echo fix`. -/
def fixesEcho : List Fix :=
  [{ IssueType := "stale_build", Command := "echo fix" }]

/-- A filesystem on which no path exists. -/
def fsEmpty : FileSys :=
  { pathExists := fun _ => false, mtime := fun _ => 0, glob := fun _ => [] }

/-- A `timestamp_compare` check whose source will be missing on
`fsEmpty`. -/
def cmdMissingSource : VerificationCommand :=
  { Type' := "timestamp_compare", Source := "manifest.txt", Target := "build/out.txt" }

/-- A descriptor with a configured `min_version` but no
`preferred_versions` and no `max_version`. -/
def cfgMinOnly : EcosystemConfig :=
  { Ecosystem := { Requirements := { MinVersion := "11" } } }

/-- A `version_too_old` issue. -/
def issueTooOld : ValidationIssue :=
  { Type' := "version_too_old", Severity := "error", Required := ">= 11" }

/-- A probe result with no detected version manager. -/
def infoNoManager : VersionInfo := {}

/-- A descriptor with preferred versions and an `sdkman` manager. -/
def cfgSdkman : EcosystemConfig :=
  { Ecosystem :=
    { Requirements := { MinVersion := "11", PreferredVersions := ["17", "21"] }
      VersionConfig :=
      { VersionManagers :=
        [{ Name := "sdkman", CheckCommand := "sdk version"
           InstallCommand := "sdk install java {version}"
           SwitchCommand := "sdk use java {version}" }] } } }

/-- A probe result that detected `sdkman`. -/
def infoSdkman : VersionInfo := { VersionManager := "sdkman" }

/-- A descriptor with no required files and one optional file. -/
def cfgNoRequired : EcosystemConfig :=
  { Ecosystem := { ID := "java-maven"
                   Detection := { RequiredFiles := [], OptionalFiles := ["mvnw"] } } }

/-! ## Helper lemmas -/

theorem cmpTail_antisymm (l : List String) : cmpTailLeft l = -cmpTailRight l := by
  induction l with
  | nil => simp [cmpTailLeft, cmpTailRight]
  | cons a r ih =>
    by_cases h1 : scanInt a < 0
    · have h2 : ¬ (0 : Int) < scanInt a := by omega
      simp [cmpTailLeft, cmpTailRight, h1, h2]
    · by_cases h3 : (0 : Int) < scanInt a
      · simp [cmpTailLeft, cmpTailRight, h1, h3]
      · simp [cmpTailLeft, cmpTailRight, h1, h3, ih]

theorem cmpTailLeft_trichotomy (l : List String) :
    cmpTailLeft l = -1 ∨ cmpTailLeft l = 0 ∨ cmpTailLeft l = 1 := by
  induction l with
  | nil => simp [cmpTailLeft]
  | cons a r ih =>
    by_cases h1 : scanInt a < 0
    · simp [cmpTailLeft, h1]
    · by_cases h2 : (0 : Int) < scanInt a
      · simp [cmpTailLeft, h1, h2]
      · simpa [cmpTailLeft, h1, h2] using ih

theorem cmpTailRight_trichotomy (l : List String) :
    cmpTailRight l = -1 ∨ cmpTailRight l = 0 ∨ cmpTailRight l = 1 := by
  induction l with
  | nil => simp [cmpTailRight]
  | cons b r ih =>
    by_cases h1 : (0 : Int) < scanInt b
    · simp [cmpTailRight, h1]
    · by_cases h2 : scanInt b < 0
      · simp [cmpTailRight, h1, h2]
      · simpa [cmpTailRight, h1, h2] using ih

theorem cmpParts_self (l : List String) : cmpParts l l = 0 := by
  induction l with
  | nil => simp [cmpParts, cmpTailRight]
  | cons a r ih => simp [cmpParts, ih]

theorem cmpParts_antisymm (l1 : List String) : ∀ l2, cmpParts l1 l2 = -cmpParts l2 l1 := by
  induction l1 with
  | nil =>
    intro l2
    cases l2 with
    | nil => simp [cmpParts, cmpTailRight]
    | cons b r2 =>
      show cmpTailRight (b :: r2) = -cmpParts (b :: r2) []
      by_cases h1 : scanInt b < 0
      · have h2 : ¬ (0 : Int) < scanInt b := by omega
        simp [cmpParts, cmpTailRight, h1, h2]
      · by_cases h3 : (0 : Int) < scanInt b
        · simp [cmpParts, cmpTailRight, h1, h3]
        · simp [cmpParts, cmpTailRight, h1, h3, cmpTail_antisymm]
  | cons a r1 ih =>
    intro l2
    cases l2 with
    | nil =>
      show cmpParts (a :: r1) [] = -cmpTailRight (a :: r1)
      by_cases h1 : scanInt a < 0
      · have h2 : ¬ (0 : Int) < scanInt a := by omega
        simp [cmpParts, cmpTailRight, h1, h2]
      · by_cases h3 : (0 : Int) < scanInt a
        · simp [cmpParts, cmpTailRight, h1, h3]
        · simp [cmpParts, cmpTailRight, h1, h3, cmpTail_antisymm]
    | cons b r2 =>
      by_cases h1 : scanInt a < scanInt b
      · have h2 : ¬ scanInt b < scanInt a := by omega
        simp [cmpParts, h1, h2]
      · by_cases h3 : scanInt b < scanInt a
        · simp [cmpParts, h1, h3]
        · simp [cmpParts, h1, h3, ih r2]

theorem cmpParts_trichotomy (l1 : List String) :
    ∀ l2, cmpParts l1 l2 = -1 ∨ cmpParts l1 l2 = 0 ∨ cmpParts l1 l2 = 1 := by
  induction l1 with
  | nil =>
    intro l2
    simpa [cmpParts] using cmpTailRight_trichotomy l2
  | cons a r1 ih =>
    intro l2
    cases l2 with
    | nil =>
      by_cases h1 : scanInt a < 0
      · simp [cmpParts, h1]
      · by_cases h2 : (0 : Int) < scanInt a
        · simp [cmpParts, h1, h2]
        · simpa [cmpParts, h1, h2] using cmpTailLeft_trichotomy r1
    | cons b r2 =>
      by_cases h1 : scanInt a < scanInt b
      · simp [cmpParts, h1]
      · by_cases h2 : scanInt b < scanInt a
        · simp [cmpParts, h1, h2]
        · simpa [cmpParts, h1, h2] using ih r2

theorem compareVersions_self (s : String) : compareVersions s s = 0 :=
  cmpParts_self _

theorem splitChar_ne_nil (sep : Char) (l : List Char) : splitChar sep l ≠ [] := by
  cases l with
  | nil => simp [splitChar]
  | cons c rest =>
    by_cases h : c = sep
    · simp [splitChar, h]
    · simp only [splitChar, if_neg h]
      rcases hs : splitChar sep rest with _ | ⟨p, ps⟩ <;> simp

theorem splitChar_of_not_mem {sep : Char} {a : List Char} (h : sep ∉ a) :
    splitChar sep a = [a] := by
  induction a with
  | nil => simp [splitChar]
  | cons c rest ih =>
    have hc : ¬ c = sep := fun he => h (he ▸ List.mem_cons_self c rest)
    have hr : sep ∉ rest := fun hm => h (List.mem_cons_of_mem c hm)
    simp only [splitChar, if_neg hc, ih hr]

theorem splitChar_append_cons {sep : Char} {a : List Char} (r : List Char) (h : sep ∉ a) :
    splitChar sep (a ++ sep :: r) = a :: splitChar sep r := by
  induction a with
  | nil => simp [splitChar]
  | cons c rest ih =>
    have hc : ¬ c = sep := fun he => h (he ▸ List.mem_cons_self c rest)
    have hr : sep ∉ rest := fun hm => h (List.mem_cons_of_mem c hm)
    simp only [List.cons_append, splitChar, if_neg hc, List.append_eq]
    rw [ih hr]

theorem not_dot_of_isNumStr {s : String} (h : isNumStr s = true) : '.' ∉ s.data := by
  intro hm
  simp only [isNumStr, Bool.and_eq_true, List.all_eq_true] at h
  have := h.2 '.' hm
  simp [Char.isDigit] at this

theorem goSplit_triple (major minor patch : String)
    (h1 : '.' ∉ major.data) (h2 : '.' ∉ minor.data) (h3 : '.' ∉ patch.data) :
    goSplit (major ++ "." ++ minor ++ "." ++ patch) '.' = [major, minor, patch] := by
  have hdata : (major ++ "." ++ minor ++ "." ++ patch).data
      = major.data ++ '.' :: (minor.data ++ '.' :: patch.data) := by
    simp [String.data_append]
  simp only [goSplit, hdata]
  rw [splitChar_append_cons _ h1, splitChar_append_cons _ h2, splitChar_of_not_mem h3]
  rfl

theorem parseVersionFrom_Semantic (V : String) :
    (parseVersionFrom V).Semantic
      = (parseVersionFrom V).Major ++ "." ++ (parseVersionFrom V).Minor ++ "."
        ++ (parseVersionFrom V).Patch := rfl

theorem parseVersionFrom_numeric (V : String) (hnum : numericParts V = true) :
    isNumStr (parseVersionFrom V).Major = true
    ∧ isNumStr (parseVersionFrom V).Minor = true
    ∧ isNumStr (parseVersionFrom V).Patch = true := by
  simp only [numericParts, Bool.and_eq_true, Bool.or_eq_true, decide_eq_true_eq] at hnum
  obtain ⟨⟨hmaj, hmin⟩, hpat⟩ := hnum
  refine ⟨hmaj, ?_, ?_⟩
  · show isNumStr (if (goSplit V '.').length > 1 then (goSplit V '.').getD 1 "" else "0") = true
    by_cases hl : (goSplit V '.').length > 1
    · rcases hmin with hle | hn
      · omega
      · rw [if_pos hl]
        exact hn
    · simp [hl, isNumStr]
  · show isNumStr (if (goSplit V '.').length > 2 then
        (goSplit ((goSplit ((goSplit V '.').getD 2 "") '+').headD "") '-').headD ""
      else "0") = true
    by_cases hl : (goSplit V '.').length > 2
    · rcases hpat with hle | hn
      · omega
      · rw [if_pos hl]
        exact hn
    · simp [hl, isNumStr]

theorem parseVersionFrom_split (V : String) (hnum : numericParts V = true) :
    goSplit (parseVersionFrom V).Semantic '.'
      = [(parseVersionFrom V).Major, (parseVersionFrom V).Minor, (parseVersionFrom V).Patch] := by
  obtain ⟨h1, h2, h3⟩ := parseVersionFrom_numeric V hnum
  rw [parseVersionFrom_Semantic]
  exact goSplit_triple _ _ _ (not_dot_of_isNumStr h1) (not_dot_of_isNumStr h2)
    (not_dot_of_isNumStr h3)

/-! ## Claim theorems: version normalization and comparison -/

/-- C6: for every numeric version string accepted by a descriptor's
version pattern, `parseVersion`'s normalized triple has exactly three
dot-separated numeric parts — the string is split on `.`, at most
three parts are used, a `+…`/`-…` suffix is stripped from the third,
and a missing minor or patch defaults to `"0"` — and comparing the
normalized version against itself yields `0`. -/
theorem parseVersion_normalized (V : String) (hnum : numericParts V = true) :
    (goSplit (parseVersionFrom V).Semantic '.').length = 3
    ∧ (∀ p ∈ goSplit (parseVersionFrom V).Semantic '.', isNumStr p = true)
    ∧ ((goSplit V '.').length ≤ 1 → (parseVersionFrom V).Minor = "0")
    ∧ ((goSplit V '.').length ≤ 2 → (parseVersionFrom V).Patch = "0")
    ∧ compareVersions (parseVersionFrom V).Semantic (parseVersionFrom V).Semantic = 0 := by
  obtain ⟨h1, h2, h3⟩ := parseVersionFrom_numeric V hnum
  have hsplit := parseVersionFrom_split V hnum
  refine ⟨by rw [hsplit]; rfl, ?_, ?_, ?_, compareVersions_self _⟩
  · intro p hp
    rw [hsplit] at hp
    simp only [List.mem_cons, List.not_mem_nil, or_false] at hp
    rcases hp with hp | hp | hp
    · exact hp ▸ h1
    · exact hp ▸ h2
    · exact hp ▸ h3
  · intro hle
    show (if (goSplit V '.').length > 1 then (goSplit V '.').getD 1 "" else "0") = "0"
    rw [if_neg (by omega)]
  · intro hle
    show (if (goSplit V '.').length > 2 then
        (goSplit ((goSplit ((goSplit V '.').getD 2 "") '+').headD "") '-').headD ""
      else "0") = "0"
    rw [if_neg (by omega)]

/-- Witness for C6 at the concrete version string `17.0.9+11`. -/
theorem parseVersion_normalized_witness :
    numericParts "17.0.9+11" = true
    ∧ (goSplit (parseVersionFrom "17.0.9+11").Semantic '.').length = 3
    ∧ compareVersions (parseVersionFrom "17.0.9+11").Semantic
        (parseVersionFrom "17.0.9+11").Semantic = 0 :=
  ⟨by decide, (parseVersion_normalized "17.0.9+11" (by decide)).1,
    (parseVersion_normalized "17.0.9+11" (by decide)).2.2.2.2⟩

/-- C7: the version comparison is antisymmetric (`compare(A,B) =
-compare(B,A)`), total (exactly one of `-1`, `0`, `1` results, so
exactly one of less-than, equal, greater-than holds), and accepts
un-normalized inputs, e.g. `compare("17", "17.0.0") = 0`. -/
theorem compareVersions_total (A B : String) :
    compareVersions A B = -compareVersions B A
    ∧ (compareVersions A B = -1 ∨ compareVersions A B = 0 ∨ compareVersions A B = 1)
    ∧ compareVersions "17" "17.0.0" = 0 :=
  ⟨cmpParts_antisymm _ _, cmpParts_trichotomy _ _, by decide⟩

/-! ## Claim theorems: reconciler -/

theorem reconcileGo_isSuccess (runCmd : String → ExecResult) (fixes : List Fix) :
    ∀ (issues : List Issue) (fixed failed : List FixResult) (ok : Bool),
    ok = failed.isEmpty →
    (reconcileGo runCmd fixes issues fixed failed ok).2.2
      = (reconcileGo runCmd fixes issues fixed failed ok).2.1.isEmpty := by
  intro issues
  induction issues with
  | nil =>
    intro fixed failed ok h
    simpa [reconcileGo] using h
  | cons issue rest ih =>
    intro fixed failed ok h
    by_cases hfa : issue.FixAvailable = true
    · cases hff : findFix fixes issue.Type' with
      | none =>
        simp only [reconcileGo, hfa, Bool.not_true, Bool.false_eq_true, if_false, hff]
        exact ih _ _ _ (by simp)
      | some fix =>
        by_cases hs : (executeFix runCmd fix issue).Success = true
        · simp only [reconcileGo, hfa, Bool.not_true, Bool.false_eq_true, if_false, hff, hs,
            if_true]
          exact ih _ _ _ h
        · simp only [reconcileGo, hfa, Bool.not_true, Bool.false_eq_true, if_false, hff, hs,
            if_false]
          exact ih _ _ _ (by simp)
    · have hfa' : issue.FixAvailable = false := by
        cases hv : issue.FixAvailable
        · rfl
        · exact absurd hv hfa
      simp only [reconcileGo, hfa', Bool.not_false, if_true]
      exact ih _ _ _ h

/-- C2 counterexample: with no fixable issue supplied, both lists are
empty and `is_success` is `true`, so `is_success` is not equivalent to
"`failed` empty and `fixed` non-empty". -/
theorem reconcile_isSuccess_claim_cex :
    ¬(((reconcileEnvironment runNone [] []).IsSuccess = true)
      ↔ ((reconcileEnvironment runNone [] []).Failed = []
          ∧ (reconcileEnvironment runNone [] []).Fixed ≠ [])) := by decide

/-- C2 (amended): for every command oracle, issue list and fixes list,
the report's `is_success` holds iff its `failed` list is empty; a
non-empty `fixed` list is not required, so with no fixable issues the
report is successful. -/
theorem reconcile_isSuccess_iff_no_failures (runCmd : String → ExecResult)
    (issues : List Issue) (fixes : List Fix) :
    (reconcileEnvironment runCmd issues fixes).IsSuccess
      = (reconcileEnvironment runCmd issues fixes).Failed.isEmpty := by
  have h := reconcileGo_isSuccess runCmd fixes issues [] [] true (by simp)
  rcases he : reconcileGo runCmd fixes issues [] [] true with ⟨fixed, failed, ok⟩
  rw [he] at h
  simp only [reconcileEnvironment, he]
  exact h

/-- C4 counterexample: a fixable issue whose type has no entry in the
ecosystem's `Fixes` map is recorded as failed ("No fix available for
this issue type") without being executed, even though it carries its
own non-empty `fix_command` and the command oracle would have
succeeded. -/
theorem reconciler_command_source_cex :
    issueCarried.FixAvailable = true ∧ issueCarried.FixCommand = "make build"
    ∧ findFix [] issueCarried.Type' = none
    ∧ (reconcileEnvironment runNone [issueCarried] []).Fixed = []
    ∧ (reconcileEnvironment runNone [issueCarried] []).Failed.map FixResult.Message
        = ["No fix available for this issue type"] := by decide

/-- C4 (amended): once a `Fixes` entry for the issue's kind exists, the
executed command is the entry's command when non-empty, else the
issue's own `fix_command`, and only when both are empty does the
reconciler record "No fix command available"; but when no entry exists
for the kind, the issue fails with "No fix available for this issue
type" without executing anything, even if it carries a non-empty
`fix_command`. -/
theorem reconciler_command_source (runCmd : String → ExecResult) (fixes : List Fix)
    (fix : Fix) (issue : Issue) :
    (executeFix runCmd fix issue
      = if fix.Command ≠ "" then runSelectedFix runCmd fix fix.Command
        else if issue.FixCommand ≠ "" then runSelectedFix runCmd fix issue.FixCommand
        else { IssueType := fix.IssueType, Command := fix.Command, Success := false,
               Message := "No fix command available" })
    ∧ (issue.FixAvailable = true → findFix fixes issue.Type' = none →
        reconcileEnvironment runCmd [issue] fixes
          = { Fixed := []
              Failed := [{ IssueType := issue.Type', Success := false,
                           Message := "No fix available for this issue type" }]
              IsSuccess := false
              Message := "Failed to fix 1 issue(s)" }) := by
  constructor
  · unfold executeFix
    by_cases h1 : fix.Command = ""
    · by_cases h2 : issue.FixCommand = ""
      · simp [h1, h2]
      · simp [h1, h2]
    · simp [h1]
  · intro hfa hff
    simp only [reconcileEnvironment, reconcileGo, hfa, Bool.not_true, Bool.false_eq_true,
      if_false, hff, List.nil_append]
    have hmsg : reconcileMessage []
        [{ IssueType := issue.Type', Success := false,
           Message := "No fix available for this issue type" }] = "Failed to fix 1 issue(s)" := by
      simp [reconcileMessage]
      rfl
    rw [hmsg]

/-- Witness for C4 at a concrete fixable issue with a carried command
but no `Fixes` entry. -/
theorem reconciler_command_source_witness :
    reconcileEnvironment runNone [issueCarried] []
      = { Fixed := []
          Failed := [{ IssueType := "stale_build", Success := false,
                       Message := "No fix available for this issue type" }]
          IsSuccess := false
          Message := "Failed to fix 1 issue(s)" } :=
  (reconciler_command_source runNone [] {} issueCarried).2 rfl rfl

/-! ## Claim theorems: freshness verifier -/

theorem getFixCommand_spec (fixes : List Fix) (t : String) :
    (∀ f, findFix fixes t = some f → getFixCommand fixes t = f.Command)
    ∧ (findFix fixes t = none → getFixCommand fixes t = "") := by
  induction fixes with
  | nil => simp [findFix, getFixCommand]
  | cons fix rest ih =>
    by_cases h : fix.IssueType = t
    · simp [findFix, getFixCommand, h]
    · simpa [findFix, getFixCommand, h] using ih

/-- C5: for a `timestamp_compare` check with an existing source and a
single configured target, a missing target yields exactly the
`missing_target` warning with no fix; an older target yields exactly
the `stale_build` error whose `fix_command` is the ecosystem's recorded
`stale_build` command when one exists and `""` otherwise; a target at
least as new as the source yields no issue. -/
theorem verifyTimestampCompare_single_target (fs : FileSys) (expand : String → String)
    (projectRoot : String) (cmd : VerificationCommand) (fixes : List Fix)
    (rel : String → String)
    (hsrc : fs.pathExists (joinPath projectRoot (expand cmd.Source)) = true)
    (hpat : cmd.TargetPattern = "") (htgt : cmd.Target ≠ "") :
    (fs.pathExists (joinPath projectRoot (expand cmd.Target)) = false →
      verifyTimestampCompare fs expand projectRoot cmd fixes rel
        = .ok (some { Type' := "missing_target", Severity := "warning",
                      Message := "Target file not found: " ++ cmd.Target,
                      FixAvailable := false }))
    ∧ (fs.pathExists (joinPath projectRoot (expand cmd.Target)) = true →
        fs.mtime (joinPath projectRoot (expand cmd.Source))
          > fs.mtime (joinPath projectRoot (expand cmd.Target)) →
        verifyTimestampCompare fs expand projectRoot cmd fixes rel
          = .ok (some { Type' := "stale_build", Severity := "error",
                        Message := cmd.Source ++ " is newer than " ++ cmd.Target,
                        FixAvailable := true,
                        FixCommand := getFixCommand fixes "stale_build" }))
    ∧ (fs.pathExists (joinPath projectRoot (expand cmd.Target)) = true →
        fs.mtime (joinPath projectRoot (expand cmd.Source))
          ≤ fs.mtime (joinPath projectRoot (expand cmd.Target)) →
        verifyTimestampCompare fs expand projectRoot cmd fixes rel = .ok none)
    ∧ (∀ f, findFix fixes "stale_build" = some f →
        getFixCommand fixes "stale_build" = f.Command)
    ∧ (findFix fixes "stale_build" = none → getFixCommand fixes "stale_build" = "") := by
  refine ⟨?_, ?_, ?_, (getFixCommand_spec fixes "stale_build").1,
    (getFixCommand_spec fixes "stale_build").2⟩
  · intro hmiss
    simp [verifyTimestampCompare, hsrc, hpat, htgt, hmiss]
  · intro hexists hnewer
    simp [verifyTimestampCompare, hsrc, hpat, htgt, hexists, hnewer]
  · intro hexists hfresh
    simp [verifyTimestampCompare, hsrc, hpat, htgt, hexists, not_lt.mpr hfresh]

/-- Witness for C5 on a concrete filesystem where the manifest is newer
than the single build target and an `echo fix` command is recorded. -/
theorem verifyTimestampCompare_single_target_witness :
    verifyTimestampCompare fsStale id "proj" cmdSingleTarget fixesEcho id
      = .ok (some { Type' := "stale_build", Severity := "error",
                    Message := "manifest.txt is newer than build/out.txt",
                    FixAvailable := true, FixCommand := "echo fix" }) :=
  (verifyTimestampCompare_single_target fsStale id "proj" cmdSingleTarget fixesEcho id
    (by decide) (by decide) (by decide)).2.1 (by decide) (by decide)

theorem freshnessGo_skip_error (fs : FileSys) (expand : String → String)
    (projectRoot : String) (fixes : List Fix) (rel : String → String)
    (c : VerificationCommand) (post : List VerificationCommand)
    (herr : ∃ e, executeVerificationCommand fs expand projectRoot fixes rel c = .error e) :
    ∀ (pre : List VerificationCommand) (healthy : Bool) (issues : List Issue),
    freshnessGo fs expand projectRoot fixes rel (pre ++ c :: post) healthy issues
      = freshnessGo fs expand projectRoot fixes rel (pre ++ post) healthy issues := by
  intro pre
  induction pre with
  | nil =>
    intro healthy issues
    obtain ⟨e, he⟩ := herr
    simp [freshnessGo, he]
  | cons p rest ih =>
    intro healthy issues
    simp only [List.cons_append, freshnessGo]
    cases hexec : executeVerificationCommand fs expand projectRoot fixes rel p with
    | error e => exact ih _ _
    | ok o =>
      cases o with
      | none => exact ih _ _
      | some issue => exact ih _ _

/-- C9: a `timestamp_compare` check whose source path does not exist is
a check-level failure that contributes no issue: the freshness report
over any check list containing it equals the report over the same list
without it, so the remaining checks' issues appear unchanged and in
declaration order. -/
theorem freshness_missing_source_skipped (fs : FileSys) (expand : String → String)
    (projectRoot ecosystemID : String) (fixes : List Fix) (rel : String → String)
    (pre post : List VerificationCommand) (c : VerificationCommand)
    (htype : c.Type' = "timestamp_compare")
    (hsrc : fs.pathExists (joinPath projectRoot (expand c.Source)) = false) :
    verifyBuildFreshness fs expand projectRoot ecosystemID fixes rel (pre ++ c :: post)
      = verifyBuildFreshness fs expand projectRoot ecosystemID fixes rel (pre ++ post) := by
  unfold verifyBuildFreshness
  rw [freshnessGo_skip_error fs expand projectRoot fixes rel c post
    ⟨"source file not found: " ++ joinPath projectRoot (expand c.Source),
      by simp [executeVerificationCommand, htype, verifyTimestampCompare, hsrc]⟩]

/-- Witness for C9 on the empty filesystem: the report with the
source-missing check equals the report without it. -/
theorem freshness_missing_source_skipped_witness :
    verifyBuildFreshness fsEmpty id "proj" "eco" [] id [cmdMissingSource]
      = verifyBuildFreshness fsEmpty id "proj" "eco" [] id []
    ∧ fsEmpty.pathExists (joinPath "proj" (id cmdMissingSource.Source)) = false :=
  ⟨freshness_missing_source_skipped fsEmpty id "proj" "eco" [] id [] [] cmdMissingSource
    rfl (by decide), by decide⟩

/-! ## Claim theorems: version validator suggestions -/

/-- C8 counterexample: with no preferred versions, `min_version` set
and `max_version` empty, the suggestion's `versions` list is empty, not
the two-element list `[min_version, max_version]` the claim requires. -/
theorem generateSuggestions_minmax_cex :
    cfgMinOnly.Ecosystem.Requirements.PreferredVersions = []
    ∧ cfgMinOnly.Ecosystem.Requirements.MinVersion = "11"
    ∧ (generateSuggestions infoNoManager cfgMinOnly [issueTooOld]).map Suggestion.Versions
        = [[]]
    ∧ ([[]] : List (List String))
        ≠ [[cfgMinOnly.Ecosystem.Requirements.MinVersion,
            cfgMinOnly.Ecosystem.Requirements.MaxVersion]] := by decide

/-- C8 (amended): each version-family issue contributes one
`switch_version` suggestion whose `versions` is the descriptor's
`preferred_versions` when non-empty, else `[min_version, max_version]`
when both are non-empty, else the empty list; when the detected
version manager appears among the descriptor's `version_managers`,
each candidate version is substituted for `{version}` in that
manager's install and switch command templates. -/
theorem generateSuggestions_version_family (info : VersionInfo) (cfg : EcosystemConfig)
    (pre post : List ValidationIssue) (issue : ValidationIssue)
    (h : issue.Type' = "version_too_old" ∨ issue.Type' = "version_too_new"
      ∨ issue.Type' = "version_excluded") :
    generateSuggestions info cfg (pre ++ issue :: post)
      = generateSuggestions info cfg pre
        ++ [{ Type' := "switch_version"
              Description := "Switch to a compatible version (required: "
                ++ issue.Required ++ ")"
              Versions := suggestedVersions cfg
              Commands := suggestedCommands info cfg }]
        ++ generateSuggestions info cfg post := by
  have hmid : suggestionForIssue
      (cfg.Ecosystem.VersionConfig.VersionManagers.find?
        (fun vm => vm.Name = info.VersionManager)) cfg issue
      = [{ Type' := "switch_version"
           Description := "Switch to a compatible version (required: "
             ++ issue.Required ++ ")"
           Versions := suggestedVersions cfg
           Commands := suggestedCommands info cfg }] := by
    simp only [suggestionForIssue, if_pos h]
    rfl
  simp only [generateSuggestions, List.flatMap_append, List.flatMap_cons, hmid,
    List.append_assoc]

/-- Witness for C8: a `version_too_old` issue, preferred versions
`17`/`21` and a detected `sdkman` manager yield the substituted
install and switch commands. -/
theorem generateSuggestions_version_family_witness :
    generateSuggestions infoSdkman cfgSdkman [issueTooOld]
      = [{ Type' := "switch_version"
           Description := "Switch to a compatible version (required: >= 11)"
           Versions := ["17", "21"]
           Commands := ["sdk install java 17", "sdk use java 17",
                        "sdk install java 21", "sdk use java 21"] }] :=
  generateSuggestions_version_family infoSdkman cfgSdkman [] [] issueTooOld (Or.inl rfl)

/-! ## Claim theorems: ecosystem detector -/

/-- C10: a descriptor with an empty `required_files` list matches every
project root: the base confidence is `1.0` unconditionally, the
optional-file and directory-pattern boosts cannot lower it, so the
final confidence is `1.0 ≥ 0.5` even when no optional file or pattern
directory is present. -/
theorem detector_empty_required (fileExists dirExists : String → Bool)
    (expand : String → String) (projectRoot : String) (cfg : EcosystemConfig)
    (h : cfg.Ecosystem.Detection.RequiredFiles = []) :
    isEcosystemPresent fileExists dirExists expand projectRoot cfg = (true, 1)
    ∧ ((1 : ℚ) ≥ 1/2) := by
  refine ⟨?_, by norm_num⟩
  simp only [isEcosystemPresent, h, List.filter_nil, List.length_nil, gt_iff_lt, lt_irrefl,
    false_and, if_false, lt_self_iff_false]
  have hopt : (if 0 < cfg.Ecosystem.Detection.OptionalFiles.length then
      min (1 + ((cfg.Ecosystem.Detection.OptionalFiles.filter
          (fun file => fileExists (joinPath projectRoot file))).length : ℚ)
        / (cfg.Ecosystem.Detection.OptionalFiles.length : ℚ) * (2/10)) 1
    else (1 : ℚ)) = 1 := by
    split
    · exact min_eq_right (le_add_of_nonneg_right (by positivity))
    · rfl
  rw [hopt]
  have hpat : (if 0 < cfg.Ecosystem.Detection.DirectoryPatterns.length then
      min (1 + ((cfg.Ecosystem.Detection.DirectoryPatterns.filter
          (fun pattern => dirExists (joinPath projectRoot (expand pattern)))).length : ℚ)
        / (cfg.Ecosystem.Detection.DirectoryPatterns.length : ℚ) * (1/10)) 1
    else (1 : ℚ)) = 1 := by
    split
    · exact min_eq_right (le_add_of_nonneg_right (by positivity))
    · rfl
  rw [hpat]
  norm_num

/-- Witness for C10: a descriptor requiring nothing, with one
configured optional file, matches an entirely empty filesystem with
confidence `1`. -/
theorem detector_empty_required_witness :
    isEcosystemPresent (fun _ => false) (fun _ => false) id "proj" cfgNoRequired = (true, 1) :=
  (detector_empty_required (fun _ => false) (fun _ => false) id "proj" cfgNoRequired rfl).1

/-! ## Claim theorems: descriptor loader -/

/-- C1 counterexample: two discovered YAML files carrying the same id
`dup` are both returned — the second duplicate is not dropped, so
after loading two descriptors share an id. -/
theorem loader_duplicate_ids_cex :
    discoverEcosystemConfigs baseDup = [cfgDupA, cfgDupB]
    ∧ cfgDupA.Ecosystem.ID = cfgDupB.Ecosystem.ID
    ∧ cfgDupA ≠ cfgDupB := by decide

/-- C1 (amended): discovery performs no duplicate-id handling: every
valid YAML descriptor file is loaded and returned in discovery order
without error, so files sharing an id all appear in the returned
list. -/
theorem loader_keeps_duplicate_ids (c1 c2 : EcosystemConfig) (n1 n2 : String)
    (h1 : validateConfig c1 = true) (h2 : validateConfig c2 = true)
    (hy1 : isYAMLFile n1 = true) (hy2 : isYAMLFile n2 = true) :
    discoverEcosystemConfigs [.file n1 (some c1), .file n2 (some c2)] = [c1, c2] := by
  simp [discoverEcosystemConfigs, findDir, discoverConfigsInDir, discoverConfigsEntries,
    discoverConfigsEntry, loadEcosystemConfig, hy1, hy2, h1, h2]

/-- Witness for C1 at two concrete valid descriptors sharing the id
`dup`. -/
theorem loader_keeps_duplicate_ids_witness :
    discoverEcosystemConfigs [.file "a.yaml" (some cfgDupA), .file "b.yaml" (some cfgDupB)]
      = [cfgDupA, cfgDupB]
    ∧ cfgDupA.Ecosystem.ID = cfgDupB.Ecosystem.ID :=
  ⟨loader_keeps_duplicate_ids cfgDupA cfgDupB "a.yaml" "b.yaml" (by decide) (by decide)
    (by decide) (by decide), by decide⟩

/-! ## Claim theorems: env-var audit walk -/

theorem containsSub_nil (s : List Char) : containsSub s [] = true := by
  cases s with
  | nil => rfl
  | cons c rest => simp [containsSub, List.tails_cons, List.isPrefixOf]

theorem isPrefixOf_append_extend {sub t : List Char} (m : List Char)
    (h : sub.isPrefixOf t = true) : sub.isPrefixOf (t ++ m) = true :=
  List.isPrefixOf_iff_prefix.mpr
    ((List.isPrefixOf_iff_prefix.mp h).trans (List.prefix_append t m))

theorem containsSub_append_right (sub : List Char) :
    ∀ (s m : List Char), containsSub s sub = true → containsSub (s ++ m) sub = true := by
  intro s
  induction s with
  | nil =>
    intro m h
    have hsub : sub = [] := by
      simp only [containsSub, List.tails, List.any_cons, List.any_nil,
        Bool.or_false] at h
      exact List.prefix_nil.mp (List.isPrefixOf_iff_prefix.mp h)
    subst hsub
    exact containsSub_nil _
  | cons c rest ih =>
    intro m h
    simp only [containsSub, List.tails_cons, List.any_cons, List.cons_append,
      Bool.or_eq_true] at h ⊢
    rcases h with h1 | h2
    · exact Or.inl (by simpa using isPrefixOf_append_extend m h1)
    · exact Or.inr (by simpa [containsSub] using ih m (by simpa [containsSub] using h2))

theorem skipDir_append (p x : String) (h : skipDir p = true) : skipDir (p ++ x) = true := by
  have hdata : (p ++ x).data = p.data ++ x.data := String.data_append p x
  simp only [skipDir, goContains, Bool.or_eq_true, hdata] at h ⊢
  rcases h with ((h | h) | h) | h
  · exact Or.inl (Or.inl (Or.inl (containsSub_append_right _ _ _ h)))
  · exact Or.inl (Or.inl (Or.inr (containsSub_append_right _ _ _ h)))
  · exact Or.inl (Or.inr (containsSub_append_right _ _ _ h))
  · exact Or.inr (containsSub_append_right _ _ _ h)

mutual

theorem dirPaths_extend : ∀ (p : String) (e : WalkEntry) (s : String),
    s ∈ dirPaths p e → ∃ x, s = p ++ x
  | p, .file n, s => by simp [dirPaths]
  | p, .dir name entries, s => by
    intro hs
    simp only [dirPaths, List.mem_cons] at hs
    rcases hs with rfl | hs
    · exact ⟨"/" ++ name, by simp [joinPath, String.append_assoc]⟩
    · obtain ⟨y, hy⟩ := dirPathsEntries_extend (joinPath p name) entries s hs
      refine ⟨"/" ++ name ++ y, ?_⟩
      rw [hy]
      simp [joinPath, String.append_assoc]

theorem dirPathsEntries_extend : ∀ (p : String) (es : List WalkEntry) (s : String),
    s ∈ dirPathsEntries p es → ∃ x, s = p ++ x
  | p, [], s => by simp [dirPathsEntries]
  | p, e :: rest, s => by
    intro hs
    simp only [dirPathsEntries, List.mem_append] at hs
    rcases hs with hs | hs
    · exact dirPaths_extend p e s hs
    · exact dirPathsEntries_extend p rest s hs

end

theorem dirPaths_filter_nil {q : String} (hq : skipDir q = true) (entries : List WalkEntry) :
    (dirPathsEntries q entries).filter (fun s => !skipDir s) = [] := by
  rw [List.filter_eq_nil_iff]
  intro a ha
  obtain ⟨x, rfl⟩ := dirPathsEntries_extend q entries a ha
  simp [skipDir_append _ _ hq]

mutual

theorem scannedDirs_filter : ∀ (p : String) (e : WalkEntry),
    scannedDirs p e = (dirPaths p e).filter (fun s => !skipDir s)
  | p, .file n => rfl
  | p, .dir name entries => by
    by_cases hq : skipDir (joinPath p name) = true
    · have hfilter : (dirPaths p (.dir name entries)).filter (fun s => !skipDir s) = [] := by
        simp only [dirPaths]
        rw [List.filter_cons_of_neg (by simp [hq]), dirPaths_filter_nil hq]
      rw [hfilter]
      simp [scannedDirs, hq]
    · have hq' : skipDir (joinPath p name) = false := by
        cases hv : skipDir (joinPath p name)
        · rfl
        · exact absurd hv hq
      simp only [scannedDirs, dirPaths, hq', Bool.false_eq_true, if_false]
      rw [List.filter_cons_of_pos (by simp [hq'])]
      exact congrArg (List.cons (joinPath p name)) (scannedDirsEntries_filter _ entries)

theorem scannedDirsEntries_filter : ∀ (p : String) (es : List WalkEntry),
    scannedDirsEntries p es = (dirPathsEntries p es).filter (fun s => !skipDir s)
  | p, [] => rfl
  | p, e :: rest => by
    simp only [scannedDirsEntries, dirPathsEntries, List.filter_append]
    rw [scannedDirs_filter p e, scannedDirsEntries_filter p rest]

end

/-- C3 counterexample: the walk skips the directory `proj/buildings`
although its path contains `build` only as a substring of the name
`buildings`, not as a whole path segment, so the segment reading of
the skip rule is refuted — the directory is in the tree but is not
scanned. -/
theorem auditWalk_substring_cex :
    segmentSkip "proj/buildings" = false
    ∧ auditDirPaths "proj" [WalkEntry.dir "buildings" []] = ["proj", "proj/buildings"]
    ∧ auditScannedDirs "proj" [WalkEntry.dir "buildings" []] = ["proj"] := by decide

/-- C3 (amended): during the env-var audit walk, a directory is
scanned exactly when its path does not contain `node_modules`, `.git`,
`target` or `build` as a substring anywhere (a directory under a
skipped one is also skipped, since its path extends the skipped
path): the scanned directories are precisely the walked tree's
directory paths filtered by the code's substring-based skip test. -/
theorem auditWalk_skip_substring (projectRoot : String) (entries : List WalkEntry) :
    auditScannedDirs projectRoot entries
      = (auditDirPaths projectRoot entries).filter (fun s => !skipDir s) := by
  unfold auditScannedDirs auditDirPaths
  by_cases hr : skipDir projectRoot = true
  · rw [if_pos hr, List.filter_cons_of_neg (by simp [hr]), dirPaths_filter_nil hr]
  · have hr' : skipDir projectRoot = false := by
      cases hv : skipDir projectRoot
      · rfl
      · exact absurd hv hr
    rw [if_neg hr, List.filter_cons_of_pos (by simp [hr'])]
    exact congrArg (List.cons projectRoot) (scannedDirsEntries_filter _ entries)

end DevEnvMCP
